import Mathlib

set_option linter.unusedVariables false

/-! Shallow embedding of the core of `ralph-wiggum.ts` (the Ralph Wiggum plugin):
task data model, the dependency inferencer `analyzeDependencies`, the layer
builder `buildExecutionLayers`, the task runner `executeTask` /
`executeTasksParallel`, the orchestrator entry `ralph_run`, and the state
snapshot functions `saveRalphState` / `loadRalphState`.  JavaScript `Map` /
`Set` values are modelled as association lists / insertion-ordered duplicate-free
lists; the external session backend is modelled by a `WorkerBehavior` oracle. -/

inductive TaskStatus where
  | pending
  | in_progress
  | completed
  | failed
deriving DecidableEq

structure RalphTask where
  id : String
  content : String
  status : TaskStatus
  sessionId : Option String := none
  error : Option String := none
  dependencies : Option (List String) := none
  outputs : Option (List String) := none
deriving DecidableEq

instance : Inhabited RalphTask :=
  ⟨{ id := "", content := "", status := TaskStatus.pending }⟩

/-- Membership test on a list of strings (models `Set.has` / `Map.has`). -/
def memb (x : String) (l : List String) : Bool :=
  l.any (fun y => decide (y = x))

/-- Lookup in the task map built by `new Map(tasks.map(t => [t.id, t]))`:
for duplicate ids the later entry wins, hence the search over `reverse`. -/
def taskMapGet (tasks : List RalphTask) (tid : String) : RalphTask :=
  (tasks.reverse.find? (fun t => decide (t.id = tid))).getD default

/-- `task.dependencies || []`. -/
def taskDeps (t : RalphTask) : List String :=
  t.dependencies.getD []

/-- The candidate layer of one pass of `buildExecutionLayers`: every remaining
task all of whose dependencies are in `completed`. -/
def candidateIds (tasks : List RalphTask) (remaining completed : List String) : List String :=
  remaining.filter (fun tid => (taskDeps (taskMapGet tasks tid)).all (fun d => memb d completed))

/-- The guard `layer.length === 0 && remaining.size > 0` of the fallback path. -/
def layerFlag (tasks : List RalphTask) (remaining completed : List String) : Bool :=
  (candidateIds tasks remaining completed).isEmpty && !remaining.isEmpty

/-- Ids of the layer emitted by one pass: the candidate layer, or (fallback)
all remaining ids when the candidate layer is empty. -/
def layerIdsOf (tasks : List RalphTask) (remaining completed : List String) : List String :=
  if layerFlag tasks remaining completed then remaining
  else candidateIds tasks remaining completed

/-- `remaining` after one pass: layer members are deleted. -/
def nextRemaining (tasks : List RalphTask) (remaining completed : List String) : List String :=
  remaining.filter (fun tid => !(memb tid (layerIdsOf tasks remaining completed)))

/-- `completed` after one pass: layer members are added. -/
def nextCompleted (tasks : List RalphTask) (remaining completed : List String) : List String :=
  completed ++ layerIdsOf tasks remaining completed

/-- The `while (remaining.size > 0 && iterations < maxIterations)` loop of
`buildExecutionLayers`, with `fuel` the number of iterations still allowed.
A layer is pushed only when non-empty (`if (layer.length > 0)`). -/
def buildLayersAux (tasks : List RalphTask) : Nat → List String → List String → List (List RalphTask)
  | 0, _, _ => []
  | fuel + 1, remaining, completed =>
    if remaining.isEmpty then []
    else
      if (layerIdsOf tasks remaining completed).isEmpty then
        buildLayersAux tasks fuel (nextRemaining tasks remaining completed)
          (nextCompleted tasks remaining completed)
      else
        ((layerIdsOf tasks remaining completed).map (taskMapGet tasks)) ::
          buildLayersAux tasks fuel (nextRemaining tasks remaining completed)
            (nextCompleted tasks remaining completed)

/-- Insertion-order deduplication, as performed by `new Set(list)`. -/
def dedupKeepFirstAux (seen : List String) : List String → List String
  | [] => []
  | x :: xs =>
    if memb x seen then dedupKeepFirstAux seen xs
    else x :: dedupKeepFirstAux (x :: seen) xs

/-- `new Set(tasks.map(t => t.id))` as an insertion-ordered list. -/
def newSetOf (l : List String) : List String :=
  dedupKeepFirstAux [] l

/-- `buildExecutionLayers` (ralph-wiggum.ts lines 180-225). -/
def buildExecutionLayers (tasks : List RalphTask) : List (List RalphTask) :=
  buildLayersAux tasks (tasks.length + 1) (newSetOf (tasks.map (fun t => t.id))) []

/-- Instrumented variant of `buildLayersAux` that also records, per emitted
layer, whether it was produced by the fallback path. -/
def buildLayersAuxF (tasks : List RalphTask) : Nat → List String → List String → List (List RalphTask × Bool)
  | 0, _, _ => []
  | fuel + 1, remaining, completed =>
    if remaining.isEmpty then []
    else
      if (layerIdsOf tasks remaining completed).isEmpty then
        buildLayersAuxF tasks fuel (nextRemaining tasks remaining completed)
          (nextCompleted tasks remaining completed)
      else
        ((layerIdsOf tasks remaining completed).map (taskMapGet tasks),
            layerFlag tasks remaining completed) ::
          buildLayersAuxF tasks fuel (nextRemaining tasks remaining completed)
            (nextCompleted tasks remaining completed)

/-- `buildExecutionLayers` with per-layer fallback flags. -/
def buildExecutionLayersFlagged (tasks : List RalphTask) : List (List RalphTask × Bool) :=
  buildLayersAuxF tasks (tasks.length + 1) (newSetOf (tasks.map (fun t => t.id))) []

/-- Instrumented variant of `buildLayersAux` that also returns the final value
of `remaining` when the loop stops and the number of loop iterations run. -/
def buildLayersAuxT (tasks : List RalphTask) : Nat → List String → List String → Nat → List (List RalphTask) × List String × Nat
  | 0, remaining, _, iters => ([], remaining, iters)
  | fuel + 1, remaining, completed, iters =>
    if remaining.isEmpty then ([], remaining, iters)
    else
      if (layerIdsOf tasks remaining completed).isEmpty then
        buildLayersAuxT tasks fuel (nextRemaining tasks remaining completed)
          (nextCompleted tasks remaining completed) (iters + 1)
      else
        (((layerIdsOf tasks remaining completed).map (taskMapGet tasks)) ::
            (buildLayersAuxT tasks fuel (nextRemaining tasks remaining completed)
              (nextCompleted tasks remaining completed) (iters + 1)).1,
          (buildLayersAuxT tasks fuel (nextRemaining tasks remaining completed)
            (nextCompleted tasks remaining completed) (iters + 1)).2)

/-- `buildExecutionLayers` instrumented with the final `remaining` set and the
iteration count of its loop. -/
def buildExecutionLayersTrace (tasks : List RalphTask) : List (List RalphTask) × List String × Nat :=
  buildLayersAuxT tasks (tasks.length + 1) (newSetOf (tasks.map (fun t => t.id))) [] 0

/-! The dependency inferencer `analyzeDependencies` (lines 111-177).  Its
patterns all have the shape `verb\s+(?:opt1\s+)?...(?:optk\s+)?(\w+)` with the
`gi` flags; they are embedded as a verb plus a list of optional filler words,
with `\w` as ASCII word characters, `\s` as whitespace, case-insensitive
matching, and `matchAll`-style left-to-right non-overlapping scanning. -/

structure LexPattern where
  verb : String
  optionals : List String

def isWordChar (c : Char) : Bool :=
  c.isAlpha || c.isDigit || c == '_'

def isSpaceChar (c : Char) : Bool :=
  c.isWhitespace

/-- `String.prototype.toLowerCase` on ASCII content, character by character. -/
def strLower (s : String) : String :=
  String.mk (s.data.map Char.toLower)

/-- Match the literal word `w` (stored lowercase) case-insensitively. -/
def matchLit : List Char → List Char → Option (List Char)
  | [], s => some s
  | _ :: _, [] => none
  | p :: ps, c :: cs => if c.toLower == p then matchLit ps cs else none

/-- Match `\s+` (one or more whitespace characters, greedily). -/
def matchSpaces1 : List Char → Option (List Char)
  | [] => none
  | c :: cs => if isSpaceChar c then some (cs.dropWhile isSpaceChar) else none

/-- Match a literal word followed by `\s+`. -/
def matchWordSp (w : String) (s : List Char) : Option (List Char) :=
  (matchLit w.data s).bind matchSpaces1

/-- Match the trailing capture group `(\w+)` greedily. -/
def captureWord (s : List Char) : Option (String × List Char) :=
  let tok := s.takeWhile isWordChar
  if tok.isEmpty then none else some (String.mk tok, s.dropWhile isWordChar)

/-- Match a sequence of optional groups `(?:w\s+)?`, then the capture, with
the regex engine's backtracking order (group taken first, then skipped). -/
def matchOptionals : List String → List Char → Option (String × List Char)
  | [], s => captureWord s
  | w :: ws, s =>
    match matchWordSp w s with
    | some s' => (matchOptionals ws s').orElse (fun _ => matchOptionals ws s)
    | none => matchOptionals ws s

/-- Try to match a whole pattern at the start of `s`. -/
def matchPatternAt (p : LexPattern) (s : List Char) : Option (String × List Char) :=
  (matchWordSp p.verb s).bind (matchOptionals p.optionals)

/-- `content.matchAll(pattern)`: attempt the pattern at every position from
left to right, resuming after the end of each match. -/
def scanAux (p : LexPattern) : Nat → List Char → List String
  | 0, _ => []
  | _ + 1, [] => []
  | fuel + 1, c :: cs =>
    match matchPatternAt p (c :: cs) with
    | some (tok, rest) => tok :: scanAux p fuel rest
    | none => scanAux p fuel cs

/-- All captures of one pattern over `content`, in match order. -/
def matchAllCaptures (p : LexPattern) (content : String) : List String :=
  scanAux p content.length content.data

/-- The `outputPatterns` array of `analyzeDependencies`. -/
def outputPatterns : List LexPattern :=
  [⟨"create", ["the"]⟩, ⟨"implement", ["the"]⟩, ⟨"build", ["the"]⟩,
   ⟨"setup", ["the"]⟩, ⟨"initialize", ["the"]⟩, ⟨"add", ["the"]⟩,
   ⟨"write", ["the"]⟩]

/-- The `inputPatterns` array of `analyzeDependencies`. -/
def inputPatterns : List LexPattern :=
  [⟨"use", ["the"]⟩, ⟨"with", ["the"]⟩, ⟨"using", ["the"]⟩,
   ⟨"integrate", ["the"]⟩, ⟨"connect", ["to", "the"]⟩, ⟨"test", ["the"]⟩,
   ⟨"update", ["the"]⟩]

/-- `Set.add` on an insertion-ordered list. -/
def addUnique (l : List String) (x : String) : List String :=
  if memb x l then l else l ++ [x]

/-- Collect the lowercased captures of a list of patterns over `content` into
an insertion-ordered set. -/
def extractTokens (pats : List LexPattern) (content : String) : List String :=
  pats.foldl (fun acc p =>
    (matchAllCaptures p content).foldl (fun a tok => addUnique a (strLower tok)) acc) []

structure TaskWithDeps where
  id : String
  content : String
  dependencies : List String
  outputs : List String
deriving DecidableEq

/-- `Map.get(key)` on an association list built with `Map.set` (later entries
win, hence the search over `reverse`). -/
def assocGetLast (m : List (String × List String)) (key : String) : Option (List String) :=
  (m.reverse.find? (fun p => decide (p.1 = key))).map (fun p => p.2)

/-- `analyzeDependencies` (lines 111-177), returning the dependency map as an
association list written in task order (`Map` insertion order). -/
def analyzeDependencies (tasks : List TaskWithDeps) : List (String × List String) :=
  let taskOutputs : List (String × List String) :=
    tasks.map (fun t => (t.id, extractTokens outputPatterns t.content))
  tasks.map (fun task =>
    let inputs := extractTokens inputPatterns task.content
    (task.id,
      tasks.foldl (fun deps other =>
        if other.id = task.id then deps
        else
          if inputs.any (fun i => memb i ((assocGetLast taskOutputs other.id).getD [])) then
            deps ++ [other.id]
          else deps) []))

/-- `depMap.get(id) || []` as used by the callers of `analyzeDependencies`. -/
def depMapGet (m : List (String × List String)) (key : String) : List String :=
  (assocGetLast m key).getD []

/-! The task runner `executeTask` (lines 259-327) and `executeTasksParallel`
(lines 330-335).  The external session backend (`client.session.create` /
`client.session.prompt`) is modelled by a `WorkerBehavior` oracle describing
what the two calls do for one task; the `activeSessions` registry is an
association list from session id to task id (the `createdAt` wall-clock field
is outside the embedding).  The tasks of a layer write disjoint state (each
task only its own record and its own session key), so the `Promise.all` of
`executeTasksParallel` is embedded as sequential iteration. -/

inductive WorkerBehavior where
  | createThrows (msg : String)
  | createNull
  | promptThrows (sid msg : String)
  | succeeds (sid : String)
deriving DecidableEq

/-- `Map.set` on the session registry: replace an existing key, else append. -/
def regSet (reg : List (String × String)) (sid tid : String) : List (String × String) :=
  if memb sid (reg.map (fun p => p.1)) then
    reg.map (fun p => if p.1 = sid then (p.1, tid) else p)
  else reg ++ [(sid, tid)]

/-- `Map.delete` on the session registry. -/
def regDelete (reg : List (String × String)) (sid : String) : List (String × String) :=
  reg.filter (fun p => !(decide (p.1 = sid)))

/-- The `finally` block of `executeTask`: untrack the session if one was set. -/
def finallyCleanup (t : RalphTask) (reg : List (String × String)) : List (String × String) :=
  match t.sessionId with
  | some sid => regDelete reg sid
  | none => reg

structure ExecResult where
  task : RalphTask
  registry : List (String × String)
  statusTrace : List TaskStatus
deriving DecidableEq

/-- `executeTask` as a pure transformer of the task record and the session
registry, instrumented with the sequence of status assignments it performs. -/
def executeTask (beh : WorkerBehavior) (task : RalphTask) (reg : List (String × String)) : ExecResult :=
  match beh with
  | WorkerBehavior.createThrows msg =>
    let t := { task with status := TaskStatus.failed, error := some msg }
    ⟨t, finallyCleanup t reg, [TaskStatus.failed]⟩
  | WorkerBehavior.createNull =>
    let t := { task with status := TaskStatus.failed, error := some "Failed to create session" }
    ⟨t, finallyCleanup t reg, [TaskStatus.failed]⟩
  | WorkerBehavior.promptThrows sid msg =>
    let t1 := { task with sessionId := some sid, status := TaskStatus.in_progress }
    let t2 := { t1 with status := TaskStatus.failed, error := some msg }
    ⟨t2, finallyCleanup t2 (regSet reg sid task.id), [TaskStatus.in_progress, TaskStatus.failed]⟩
  | WorkerBehavior.succeeds sid =>
    let t1 := { task with sessionId := some sid, status := TaskStatus.in_progress }
    let t2 := { t1 with status := TaskStatus.completed }
    ⟨t2, finallyCleanup t2 (regSet reg sid task.id), [TaskStatus.in_progress, TaskStatus.completed]⟩

/-- `executeTasksParallel`: run one `executeTask` per task of the layer and
collect the updated tasks and the final registry. -/
def executeTasksParallel (behOf : String → WorkerBehavior) (tasks : List RalphTask)
    (reg : List (String × String)) : List RalphTask × List (String × String) :=
  tasks.foldl (fun acc t =>
    let r := executeTask (behOf t.id) t acc.2
    (acc.1 ++ [r.task], r.registry)) ([], reg)

/-- The status transitions permitted by the task lifecycle. -/
def statusStep : TaskStatus → TaskStatus → Bool
  | TaskStatus.pending, TaskStatus.in_progress => true
  | TaskStatus.pending, TaskStatus.failed => true
  | TaskStatus.in_progress, TaskStatus.completed => true
  | TaskStatus.in_progress, TaskStatus.failed => true
  | _, _ => false

/-- A status trace is a chain of permitted transitions from a start status. -/
def statusPath : TaskStatus → List TaskStatus → Bool
  | _, [] => true
  | s, t :: ts => statusStep s t && statusPath t ts

/-- Whether the behavior reaches the submission step (a session was created,
so execution of the task was actually attempted). -/
def behAttempted : WorkerBehavior → Bool
  | WorkerBehavior.promptThrows _ _ => true
  | WorkerBehavior.succeeds _ => true
  | _ => false

/-! The orchestrator state and the `ralph_run` tool (lines 728-869), plus the
snapshot functions `saveRalphState` (52-73) / `loadRalphState` (76-96).  File
system and JSON mechanics are external; the snapshot is modelled as the
structured record that is serialized, which JSON round-trips field for field. -/

structure ModelConfig where
  providerID : String
  modelID : String
deriving DecidableEq

structure RalphLoop where
  id : String
  originalPrompt : String
  tasks : List RalphTask
  currentTaskIndex : Int
  createdAt : Nat
  model : Option ModelConfig
  running : Bool
deriving DecidableEq

structure Todo where
  id : Option String
  content : String
  status : String
deriving DecidableEq

structure PluginState where
  activeLoop : Option RalphLoop
  lastKnownTodos : List Todo
  activeSessions : List (String × String)
deriving DecidableEq

/-- The record serialized by `saveRalphState` (`stateData`). -/
structure StateData where
  activeLoop : Option RalphLoop
  lastKnownTodos : List Todo
  savedAt : Nat
  todosDone : Nat
deriving DecidableEq

/-- `saveRalphState`: project the in-memory state to the saved record. -/
def saveRalphState (st : PluginState) (now : Nat) : StateData :=
  { activeLoop := st.activeLoop
    lastKnownTodos := st.lastKnownTodos
    savedAt := now
    todosDone := (st.lastKnownTodos.filter (fun t => decide (t.status = "completed"))).length }

/-- `loadRalphState`: restore `activeLoop` and `lastKnownTodos` from the saved
record (`stateData.activeLoop || null`, `stateData.lastKnownTodos || []`). -/
def loadRalphState (sd : StateData) (st : PluginState) : PluginState :=
  { st with activeLoop := sd.activeLoop, lastKnownTodos := sd.lastKnownTodos }

/-- The todo-import fallback of `ralph_run` (lines 744-765): project pending /
in-progress todos into fresh pending tasks (`t.id || task_${i+1}`), then run
the dependency inferencer over them. -/
def importTodoTasks (todos : List Todo) : List RalphTask :=
  let base : List RalphTask :=
    (todos.filter (fun t => decide (t.status = "pending") || decide (t.status = "in_progress"))).enum.map
      (fun p =>
        { id := match p.2.id with
                | some s => if s = "" then "task_" ++ toString (p.1 + 1) else s
                | none => "task_" ++ toString (p.1 + 1)
          content := p.2.content
          status := TaskStatus.pending
          dependencies := some [] })
  let depMap := analyzeDependencies
    (base.map (fun t => TaskWithDeps.mk t.id t.content [] []))
  base.map (fun t => { t with dependencies := some (depMapGet depMap t.id) })

/-- Write an updated task record back into the loop's task list (the source
mutates the shared task object in place; ids are unique within a run). -/
def writeBack (tasks : List RalphTask) (t' : RalphTask) : List RalphTask :=
  tasks.map (fun t => if t.id = t'.id then t' else t)

/-- The serial execution path of `ralph_run`: one task at a time, in the order
of the pending snapshot. -/
def runSerialExec (behOf : String → WorkerBehavior) (pending tasks0 : List RalphTask)
    (reg0 : List (String × String)) : List RalphTask × List (String × String) :=
  pending.foldl (fun acc t =>
    let r := executeTask (behOf t.id) t acc.2
    (writeBack acc.1 r.task, r.registry)) (tasks0, reg0)

/-- The parallel execution path of `ralph_run`: layer by layer. -/
def runParallelExec (behOf : String → WorkerBehavior) (layers : List (List RalphTask))
    (tasks0 : List RalphTask) (reg0 : List (String × String)) :
    List RalphTask × List (String × String) :=
  layers.foldl (fun acc layer =>
    let r := executeTasksParallel behOf layer acc.2
    (r.1.foldl writeBack acc.1, r.2)) (tasks0, reg0)

/-- Which of the early-return messages or the final report `ralph_run`
produced. -/
inductive RunOutcome where
  | noLoop
  | alreadyRunning
  | noTasks
  | noPending
  | finished (completedCount failedCount : Nat)
deriving DecidableEq

def countStatus (tasks : List RalphTask) (s : TaskStatus) : Nat :=
  (tasks.filter (fun t => decide (t.status = s))).length

/-- The `ralph_run` tool body as a transformer of the plugin state. -/
def ralph_run (serial : Bool) (behOf : String → WorkerBehavior) (st : PluginState) :
    PluginState × RunOutcome :=
  match st.activeLoop with
  | none => (st, RunOutcome.noLoop)
  | some loop0 =>
    if loop0.running then (st, RunOutcome.alreadyRunning)
    else
      let loop1 := if loop0.tasks.isEmpty && !st.lastKnownTodos.isEmpty then
          { loop0 with tasks := importTodoTasks st.lastKnownTodos }
        else loop0
      if loop1.tasks.isEmpty then ({ st with activeLoop := some loop1 }, RunOutcome.noTasks)
      else
        let pendingTasks := loop1.tasks.filter (fun t => decide (t.status = TaskStatus.pending))
        if pendingTasks.isEmpty then
          ({ st with activeLoop := some loop1 }, RunOutcome.noPending)
        else
          let layers := buildExecutionLayers
            (loop1.tasks.filter (fun t => decide (t.status = TaskStatus.pending)))
          let res := if serial then runSerialExec behOf pendingTasks loop1.tasks st.activeSessions
            else runParallelExec behOf layers loop1.tasks st.activeSessions
          ({ activeLoop := none, lastKnownTodos := st.lastKnownTodos, activeSessions := res.2 },
            RunOutcome.finished (countStatus res.1 TaskStatus.completed)
              (countStatus res.1 TaskStatus.failed))


/-! Concrete inputs used to instantiate the theorems below. -/

def demoA : RalphTask :=
  { id := "a", content := "t", status := TaskStatus.pending, dependencies := some [] }

def demoB : RalphTask :=
  { id := "b", content := "t", status := TaskStatus.pending, dependencies := some ["a"] }

def demoC2Tasks : List RalphTask := [demoA, demoB]

def demoCycA : RalphTask :=
  { id := "a", content := "t", status := TaskStatus.pending, dependencies := some ["b"] }

def demoCycB : RalphTask :=
  { id := "b", content := "t", status := TaskStatus.pending, dependencies := some ["a"] }

def demoCycleTasks : List RalphTask := [demoCycA, demoCycB]

def demoC1Tasks : List RalphTask :=
  [{ id := "1", content := "x", status := TaskStatus.pending, dependencies := some [] },
   { id := "2", content := "y", status := TaskStatus.pending, dependencies := some [] },
   { id := "3", content := "z", status := TaskStatus.pending, dependencies := some ["1", "2"] }]

def demoInferA : TaskWithDeps := ⟨"a", "create the schema", [], []⟩

def demoInferB : TaskWithDeps := ⟨"b", "use the schema in the API", [], []⟩

def demoInferTasks : List TaskWithDeps := [demoInferA, demoInferB]

def demoNoPattern : TaskWithDeps := ⟨"c", "zzz qqq", [], []⟩

def demoRun1 : RalphTask := { id := "1", content := "x", status := TaskStatus.pending }

def demoRun2 : RalphTask := { id := "2", content := "y", status := TaskStatus.pending }

def demoRun3 : RalphTask := { id := "3", content := "z", status := TaskStatus.pending }

def demoRunningLoop : RalphLoop :=
  { id := "L", originalPrompt := "goal", tasks := [demoA], currentTaskIndex := -1,
    createdAt := 0, model := none, running := true }

def demoRunningState : PluginState :=
  { activeLoop := some demoRunningLoop, lastKnownTodos := [], activeSessions := [] }

def demoMixedLoop : RalphLoop :=
  { id := "L2", originalPrompt := "goal", currentTaskIndex := -1, createdAt := 5,
    model := some ⟨"anthropic", "claude"⟩, running := false,
    tasks :=
      [{ id := "1", content := "x", status := TaskStatus.completed, sessionId := some "s1" },
       { id := "2", content := "y", status := TaskStatus.failed, sessionId := some "s2",
         error := some "boom" },
       { id := "3", content := "z", status := TaskStatus.pending, dependencies := some ["1"] }] }

def demoMixedState : PluginState :=
  { activeLoop := some demoMixedLoop,
    lastKnownTodos := [⟨some "t1", "do", "completed"⟩], activeSessions := [] }

/-- The worker oracle of the runner-isolation scenario: task 2's submission
raises, tasks 1 and 3 succeed. -/
def isolationBehOf (t1 t2 : RalphTask) (s1 s2 s3 msg : String) : String → WorkerBehavior :=
  fun i =>
    if i = t2.id then WorkerBehavior.promptThrows s2 msg
    else if i = t1.id then WorkerBehavior.succeeds s1
    else WorkerBehavior.succeeds s3

/-! Helper lemmas. -/

lemma memb_iff (x : String) (l : List String) : memb x l = true ↔ x ∈ l := by
  simp [memb, List.any_eq_true]

lemma memb_eq_false (x : String) (l : List String) (h : ¬ x ∈ l) : memb x l = false := by
  rw [Bool.eq_false_iff]
  intro hc
  exact h ((memb_iff x l).mp hc)

lemma mem_dedupAux (y : String) : ∀ (l seen : List String),
    y ∈ dedupKeepFirstAux seen l ↔ y ∈ l ∧ ¬ y ∈ seen := by
  intro l
  induction l with
  | nil => intro seen; simp [dedupKeepFirstAux]
  | cons x xs ih =>
    intro seen
    by_cases hx : x ∈ seen
    · simp only [dedupKeepFirstAux, (memb_iff x seen).mpr hx, if_true, ih, List.mem_cons]
      constructor
      · rintro ⟨h1, h2⟩
        exact ⟨Or.inr h1, h2⟩
      · rintro ⟨h1 | h1, h2⟩
        · exact absurd (h1 ▸ hx) h2
        · exact ⟨h1, h2⟩
    · simp only [dedupKeepFirstAux, memb_eq_false x seen hx, Bool.false_eq_true, if_false,
        List.mem_cons, ih]
      constructor
      · rintro (rfl | ⟨h1, h2⟩)
        · exact ⟨Or.inl rfl, hx⟩
        · exact ⟨Or.inr h1, fun hc => h2 (Or.inr hc)⟩
      · rintro ⟨h1, h2⟩
        by_cases hyx : y = x
        · exact Or.inl hyx
        · refine Or.inr ⟨h1.resolve_left hyx, ?_⟩
          rintro (h | h)
          · exact hyx h
          · exact h2 h

lemma nodup_dedupAux : ∀ (l seen : List String), (dedupKeepFirstAux seen l).Nodup := by
  intro l
  induction l with
  | nil => intro seen; simp [dedupKeepFirstAux]
  | cons x xs ih =>
    intro seen
    by_cases hx : x ∈ seen
    · simpa [dedupKeepFirstAux, (memb_iff x seen).mpr hx] using ih seen
    · simp only [dedupKeepFirstAux, memb_eq_false x seen hx, Bool.false_eq_true, if_false,
        List.nodup_cons]
      refine ⟨?_, ih (x :: seen)⟩
      intro hc
      exact ((mem_dedupAux x xs (x :: seen)).mp hc).2 (List.mem_cons_self x seen)

lemma dedupAux_eq_self : ∀ (l seen : List String), (∀ y ∈ l, ¬ y ∈ seen) → l.Nodup →
    dedupKeepFirstAux seen l = l := by
  intro l
  induction l with
  | nil => intro seen _ _; simp [dedupKeepFirstAux]
  | cons x xs ih =>
    intro seen hdisj hnd
    have hx : ¬ x ∈ seen := hdisj x (List.mem_cons_self x xs)
    simp only [dedupKeepFirstAux, memb_eq_false x seen hx, Bool.false_eq_true, if_false]
    rw [ih (x :: seen) ?_ (List.nodup_cons.mp hnd).2]
    intro y hy
    rw [List.mem_cons]
    rintro (rfl | hc)
    · exact (List.nodup_cons.mp hnd).1 hy
    · exact hdisj y (List.mem_cons_of_mem x hy) hc

lemma dedupAux_length_le : ∀ (l seen : List String),
    (dedupKeepFirstAux seen l).length ≤ l.length := by
  intro l
  induction l with
  | nil => intro seen; simp [dedupKeepFirstAux]
  | cons x xs ih =>
    intro seen
    by_cases hx : memb x seen = true
    · simp only [dedupKeepFirstAux, hx, if_true]
      exact Nat.le_succ_of_le (ih seen)
    · rw [Bool.not_eq_true] at hx
      simp only [dedupKeepFirstAux, hx, Bool.false_eq_true, if_false, List.length_cons]
      exact Nat.succ_le_succ (ih (x :: seen))

lemma mem_newSetOf (y : String) (l : List String) : y ∈ newSetOf l ↔ y ∈ l := by
  simp [newSetOf, mem_dedupAux]

lemma newSetOf_eq_self (l : List String) (h : l.Nodup) : newSetOf l = l :=
  dedupAux_eq_self l [] (by simp) h

lemma newSetOf_length_le (l : List String) : (newSetOf l).length ≤ l.length :=
  dedupAux_length_le l []

lemma taskMapGet_id (tasks : List RalphTask) (tid : String)
    (h : tid ∈ tasks.map (fun t => t.id)) : (taskMapGet tasks tid).id = tid := by
  rcases List.mem_map.mp h with ⟨u, hu, hid⟩
  unfold taskMapGet
  cases hf : tasks.reverse.find? (fun t => decide (t.id = tid)) with
  | none =>
    rw [List.find?_eq_none] at hf
    exact absurd (by simpa using hid) (by simpa using hf u (List.mem_reverse.mpr hu))
  | some v =>
    have := List.find?_some hf
    simpa using this

lemma length_filter_lt_of_mem {p : String → Bool} : ∀ {l : List String} {x : String},
    x ∈ l → p x = false → (l.filter p).length < l.length := by
  intro l
  induction l with
  | nil => intro x hx; exact absurd hx (List.not_mem_nil x)
  | cons a l ih =>
    intro x hx hpx
    rcases List.mem_cons.mp hx with rfl | hx
    · simp only [List.filter_cons, hpx, Bool.false_eq_true, if_false, List.length_cons]
      exact Nat.lt_succ_of_le (List.length_filter_le p l)
    · cases hpa : p a
      · simp only [List.filter_cons, hpa, Bool.false_eq_true, if_false, List.length_cons]
        exact Nat.lt_succ_of_lt (ih hx hpx)
      · simp only [List.filter_cons, hpa, if_true, List.length_cons]
        exact Nat.succ_lt_succ (ih hx hpx)

/-! Structural lemmas for the layer builder. -/

lemma buildLayersAux_nil (tasks : List RalphTask) (fuel : Nat) (completed : List String) :
    buildLayersAux tasks fuel [] completed = [] := by
  cases fuel <;> simp [buildLayersAux]

lemma buildLayersAuxF_nil (tasks : List RalphTask) (fuel : Nat) (completed : List String) :
    buildLayersAuxF tasks fuel [] completed = [] := by
  cases fuel <;> simp [buildLayersAuxF]

lemma layerIds_ne_nil (tasks : List RalphTask) (remaining completed : List String)
    (h : remaining ≠ []) : layerIdsOf tasks remaining completed ≠ [] := by
  unfold layerIdsOf
  by_cases hf : layerFlag tasks remaining completed = true
  · simpa [hf] using h
  · rw [Bool.not_eq_true] at hf
    simp only [hf, Bool.false_eq_true, if_false]
    intro hc
    unfold layerFlag at hf
    rw [hc] at hf
    simp [List.isEmpty_iff, h] at hf

lemma layerIds_subset (tasks : List RalphTask) (remaining completed : List String) :
    ∀ x ∈ layerIdsOf tasks remaining completed, x ∈ remaining := by
  intro x hx
  unfold layerIdsOf at hx
  by_cases hf : layerFlag tasks remaining completed = true
  · simpa [hf] using hx
  · rw [Bool.not_eq_true] at hf
    simp only [hf, Bool.false_eq_true, if_false] at hx
    exact List.filter_subset' _ hx

lemma nextRemaining_subset (tasks : List RalphTask) (remaining completed : List String) :
    ∀ x ∈ nextRemaining tasks remaining completed, x ∈ remaining := by
  intro x hx
  exact List.filter_subset' _ hx

lemma buildLayersAux_cons (tasks : List RalphTask) (fuel : Nat) (remaining completed : List String)
    (h : remaining ≠ []) :
    buildLayersAux tasks (fuel + 1) remaining completed =
      ((layerIdsOf tasks remaining completed).map (taskMapGet tasks)) ::
        buildLayersAux tasks fuel (nextRemaining tasks remaining completed)
          (nextCompleted tasks remaining completed) := by
  have h1 : remaining.isEmpty = false := by simp [List.isEmpty_iff, h]
  have h2 : (layerIdsOf tasks remaining completed).isEmpty = false := by
    simp [List.isEmpty_iff, layerIds_ne_nil tasks remaining completed h]
  simp [buildLayersAux, h1, h2]

lemma buildLayersAuxF_cons (tasks : List RalphTask) (fuel : Nat) (remaining completed : List String)
    (h : remaining ≠ []) :
    buildLayersAuxF tasks (fuel + 1) remaining completed =
      ((layerIdsOf tasks remaining completed).map (taskMapGet tasks),
          layerFlag tasks remaining completed) ::
        buildLayersAuxF tasks fuel (nextRemaining tasks remaining completed)
          (nextCompleted tasks remaining completed) := by
  have h1 : remaining.isEmpty = false := by simp [List.isEmpty_iff, h]
  have h2 : (layerIdsOf tasks remaining completed).isEmpty = false := by
    simp [List.isEmpty_iff, layerIds_ne_nil tasks remaining completed h]
  simp [buildLayersAuxF, h1, h2]

lemma nextRemaining_of_flag (tasks : List RalphTask) (remaining completed : List String)
    (hf : layerFlag tasks remaining completed = true) :
    nextRemaining tasks remaining completed = [] := by
  unfold nextRemaining layerIdsOf
  rw [if_pos hf]
  refine List.filter_eq_nil_iff.mpr ?_
  intro a ha
  simp [memb_iff, ha]

lemma perm_step (tasks : List RalphTask) (remaining completed : List String) :
    List.Perm
      (layerIdsOf tasks remaining completed ++ nextRemaining tasks remaining completed)
      remaining := by
  by_cases hf : layerFlag tasks remaining completed = true
  · rw [nextRemaining_of_flag tasks remaining completed hf]
    unfold layerIdsOf
    rw [if_pos hf]
    simp
  · rw [Bool.not_eq_true] at hf
    have hids : layerIdsOf tasks remaining completed = candidateIds tasks remaining completed := by
      unfold layerIdsOf
      simp [hf]
    have hnext : nextRemaining tasks remaining completed =
        remaining.filter (fun tid =>
          !((taskDeps (taskMapGet tasks tid)).all (fun d => memb d completed))) := by
      unfold nextRemaining
      refine List.filter_congr ?_
      intro tid htid
      rw [hids]
      unfold candidateIds
      cases hP : (taskDeps (taskMapGet tasks tid)).all (fun d => memb d completed) with
      | false =>
        have hm : memb tid (remaining.filter
            (fun tid => (taskDeps (taskMapGet tasks tid)).all (fun d => memb d completed))) = false := by
          refine memb_eq_false _ _ ?_
          intro hc
          have h2 := (List.mem_filter.mp hc).2
          rw [hP] at h2
          exact Bool.false_ne_true h2
        rw [hm]
      | true =>
        have hm : memb tid (remaining.filter
            (fun tid => (taskDeps (taskMapGet tasks tid)).all (fun d => memb d completed))) = true := by
          rw [memb_iff]
          exact List.mem_filter.mpr ⟨htid, hP⟩
        rw [hm]
    rw [hids, hnext]
    unfold candidateIds
    exact List.filter_append_perm _ remaining

lemma nextRemaining_length_lt (tasks : List RalphTask) (remaining completed : List String)
    (h : remaining ≠ []) :
    (nextRemaining tasks remaining completed).length < remaining.length := by
  have hp := (perm_step tasks remaining completed).length_eq
  rw [List.length_append] at hp
  have hpos : 0 < (layerIdsOf tasks remaining completed).length :=
    List.length_pos.mpr (layerIds_ne_nil tasks remaining completed h)
  omega

lemma layer_ids_map (tasks : List RalphTask) (lids : List String)
    (h : ∀ tid ∈ lids, tid ∈ tasks.map (fun t => t.id)) :
    (lids.map (taskMapGet tasks)).map (fun t => t.id) = lids := by
  rw [List.map_map]
  have : lids.map (fun tid => (taskMapGet tasks tid).id) = lids.map id := by
    refine List.map_congr_left ?_
    intro tid htid
    exact taskMapGet_id tasks tid (h tid htid)
  simpa using this

/-! Main invariants of the layer builder. -/

lemma aux_perm (tasks : List RalphTask) : ∀ (fuel : Nat) (remaining completed : List String),
    remaining.length < fuel →
    (∀ tid ∈ remaining, tid ∈ tasks.map (fun t => t.id)) →
    List.Perm
      ((buildLayersAux tasks fuel remaining completed).flatten.map (fun t => t.id))
      remaining := by
  intro fuel
  induction fuel with
  | zero =>
    intro remaining completed hlen _
    exact absurd hlen (Nat.not_lt_zero _)
  | succ fuel ih =>
    intro remaining completed hlen hsub
    by_cases hr : remaining = []
    · subst hr
      simp [buildLayersAux_nil]
    · rw [buildLayersAux_cons tasks fuel remaining completed hr]
      rw [List.flatten_cons, List.map_append]
      rw [layer_ids_map tasks (layerIdsOf tasks remaining completed)
        (fun tid htid => hsub tid (layerIds_subset tasks remaining completed tid htid))]
      have hnexts : ∀ tid ∈ nextRemaining tasks remaining completed,
          tid ∈ tasks.map (fun t => t.id) :=
        fun tid htid => hsub tid (nextRemaining_subset tasks remaining completed tid htid)
      have hnextl : (nextRemaining tasks remaining completed).length < fuel := by
        have := nextRemaining_length_lt tasks remaining completed hr
        omega
      have hrest := ih (nextRemaining tasks remaining completed)
        (nextCompleted tasks remaining completed) hnextl hnexts
      exact (hrest.append_left (layerIdsOf tasks remaining completed)).trans
        (perm_step tasks remaining completed)

lemma auxF_map_fst (tasks : List RalphTask) : ∀ (fuel : Nat) (remaining completed : List String),
    (buildLayersAuxF tasks fuel remaining completed).map Prod.fst =
      buildLayersAux tasks fuel remaining completed := by
  intro fuel
  induction fuel with
  | zero => intro remaining completed; simp [buildLayersAux, buildLayersAuxF]
  | succ fuel ih =>
    intro remaining completed
    by_cases hr : remaining = []
    · subst hr
      simp [buildLayersAux_nil, buildLayersAuxF_nil]
    · rw [buildLayersAux_cons tasks fuel remaining completed hr,
        buildLayersAuxF_cons tasks fuel remaining completed hr]
      simp [ih]

lemma auxF_ids_sub (tasks : List RalphTask) : ∀ (fuel : Nat) (remaining completed : List String),
    (∀ tid ∈ remaining, tid ∈ tasks.map (fun t => t.id)) →
    ∀ (i : Nat) (layer : List RalphTask) (flag : Bool),
      (buildLayersAuxF tasks fuel remaining completed)[i]? = some (layer, flag) →
      ∀ s ∈ layer.map (fun u => u.id), s ∈ tasks.map (fun t => t.id) := by
  intro fuel
  induction fuel with
  | zero =>
    intro remaining completed _ i layer flag hsome
    simp [buildLayersAuxF] at hsome
  | succ fuel ih =>
    intro remaining completed hsub i layer flag hsome
    by_cases hr : remaining = []
    · subst hr
      rw [buildLayersAuxF_nil] at hsome
      simp at hsome
    · rw [buildLayersAuxF_cons tasks fuel remaining completed hr] at hsome
      cases i with
      | zero =>
        rw [List.getElem?_cons_zero] at hsome
        have hlayer : layer = (layerIdsOf tasks remaining completed).map (taskMapGet tasks) :=
          (congrArg Prod.fst (Option.some.inj hsome)).symm
        subst hlayer
        intro s hs
        rw [layer_ids_map tasks (layerIdsOf tasks remaining completed)
          (fun tid htid => hsub tid (layerIds_subset tasks remaining completed tid htid))] at hs
        exact hsub s (layerIds_subset tasks remaining completed s hs)
      | succ j =>
        rw [List.getElem?_cons_succ] at hsome
        exact ih (nextRemaining tasks remaining completed)
          (nextCompleted tasks remaining completed)
          (fun tid htid => hsub tid (nextRemaining_subset tasks remaining completed tid htid))
          j layer flag hsome

lemma auxF_valid (tasks : List RalphTask) : ∀ (fuel : Nat) (remaining completed : List String),
    (∀ tid ∈ remaining, tid ∈ tasks.map (fun t => t.id)) →
    ∀ (i : Nat) (layer : List RalphTask),
      (buildLayersAuxF tasks fuel remaining completed)[i]? = some (layer, false) →
      ∀ t ∈ layer, ∀ d ∈ taskDeps t,
        d ∈ completed ∨
        ∃ (j : Nat) (earlier : List RalphTask) (eflag : Bool), j < i ∧
          (buildLayersAuxF tasks fuel remaining completed)[j]? = some (earlier, eflag) ∧
          d ∈ earlier.map (fun u => u.id) := by
  intro fuel
  induction fuel with
  | zero =>
    intro remaining completed _ i layer hsome
    simp [buildLayersAuxF] at hsome
  | succ fuel ih =>
    intro remaining completed hsub i layer hsome
    by_cases hr : remaining = []
    · subst hr
      rw [buildLayersAuxF_nil] at hsome
      simp at hsome
    · rw [buildLayersAuxF_cons tasks fuel remaining completed hr] at hsome
      cases i with
      | zero =>
        rw [List.getElem?_cons_zero] at hsome
        have hpair := Option.some.inj hsome
        have hlayer : layer = (layerIdsOf tasks remaining completed).map (taskMapGet tasks) :=
          (congrArg Prod.fst hpair).symm
        have hflag : layerFlag tasks remaining completed = false :=
          congrArg Prod.snd hpair
        have hids : layerIdsOf tasks remaining completed =
            candidateIds tasks remaining completed := by
          unfold layerIdsOf
          simp [hflag]
        subst hlayer
        intro t ht d hd
        left
        rw [hids] at ht
        rcases List.mem_map.mp ht with ⟨tid, htid, rfl⟩
        have hpred := (List.mem_filter.mp htid).2
        rw [List.all_eq_true] at hpred
        exact (memb_iff d completed).mp (hpred d hd)
      | succ j =>
        rw [List.getElem?_cons_succ] at hsome
        intro t ht d hd
        rcases ih (nextRemaining tasks remaining completed)
            (nextCompleted tasks remaining completed)
            (fun tid htid => hsub tid (nextRemaining_subset tasks remaining completed tid htid))
            j layer hsome t ht d hd with hc | ⟨j', earlier, eflag, hj', hsome', hmem⟩
        · unfold nextCompleted at hc
          rcases List.mem_append.mp hc with hc | hc
          · exact Or.inl hc
          · refine Or.inr ⟨0, (layerIdsOf tasks remaining completed).map (taskMapGet tasks),
              layerFlag tasks remaining completed, Nat.succ_pos j, ?_, ?_⟩
            · rw [buildLayersAuxF_cons tasks fuel remaining completed hr,
                List.getElem?_cons_zero]
            · rw [layer_ids_map tasks (layerIdsOf tasks remaining completed)
                (fun tid htid => hsub tid (layerIds_subset tasks remaining completed tid htid))]
              exact hc
        · refine Or.inr ⟨j' + 1, earlier, eflag, Nat.succ_lt_succ hj', ?_, hmem⟩
          rw [buildLayersAuxF_cons tasks fuel remaining completed hr,
            List.getElem?_cons_succ]
          exact hsome'

lemma auxF_fb_last (tasks : List RalphTask) : ∀ (fuel : Nat) (remaining completed : List String),
    ∀ (i : Nat) (layer : List RalphTask),
      (buildLayersAuxF tasks fuel remaining completed)[i]? = some (layer, true) →
      i + 1 = (buildLayersAuxF tasks fuel remaining completed).length := by
  intro fuel
  induction fuel with
  | zero =>
    intro remaining completed i layer hsome
    simp [buildLayersAuxF] at hsome
  | succ fuel ih =>
    intro remaining completed i layer hsome
    by_cases hr : remaining = []
    · subst hr
      rw [buildLayersAuxF_nil] at hsome
      simp at hsome
    · rw [buildLayersAuxF_cons tasks fuel remaining completed hr] at hsome ⊢
      cases i with
      | zero =>
        rw [List.getElem?_cons_zero] at hsome
        have hflag : layerFlag tasks remaining completed = true :=
          congrArg Prod.snd (Option.some.inj hsome)
        rw [List.length_cons, nextRemaining_of_flag tasks remaining completed hflag,
          buildLayersAuxF_nil]
        simp
      | succ j =>
        rw [List.getElem?_cons_succ] at hsome
        rw [List.length_cons]
        exact congrArg Nat.succ
          (ih (nextRemaining tasks remaining completed)
            (nextCompleted tasks remaining completed) j layer hsome)

lemma buildLayersAuxT_nil (tasks : List RalphTask) (fuel : Nat) (completed : List String)
    (iters : Nat) : buildLayersAuxT tasks fuel [] completed iters = ([], [], iters) := by
  cases fuel <;> simp [buildLayersAuxT]

lemma buildLayersAuxT_cons (tasks : List RalphTask) (fuel : Nat) (remaining completed : List String)
    (iters : Nat) (h : remaining ≠ []) :
    buildLayersAuxT tasks (fuel + 1) remaining completed iters =
      (((layerIdsOf tasks remaining completed).map (taskMapGet tasks)) ::
          (buildLayersAuxT tasks fuel (nextRemaining tasks remaining completed)
            (nextCompleted tasks remaining completed) (iters + 1)).1,
        (buildLayersAuxT tasks fuel (nextRemaining tasks remaining completed)
          (nextCompleted tasks remaining completed) (iters + 1)).2) := by
  have h1 : remaining.isEmpty = false := by simp [List.isEmpty_iff, h]
  have h2 : (layerIdsOf tasks remaining completed).isEmpty = false := by
    simp [List.isEmpty_iff, layerIds_ne_nil tasks remaining completed h]
  simp [buildLayersAuxT, h1, h2]

lemma auxT_spec (tasks : List RalphTask) : ∀ (fuel : Nat) (remaining completed : List String)
    (iters : Nat), remaining.length ≤ fuel →
    (buildLayersAuxT tasks fuel remaining completed iters).2.1 = []
    ∧ (buildLayersAuxT tasks fuel remaining completed iters).2.2 ≤ iters + remaining.length
    ∧ (buildLayersAuxT tasks fuel remaining completed iters).1 =
        buildLayersAux tasks fuel remaining completed := by
  intro fuel
  induction fuel with
  | zero =>
    intro remaining completed iters hlen
    have hr : remaining = [] := List.length_eq_zero.mp (Nat.le_zero.mp hlen)
    subst hr
    simp [buildLayersAuxT, buildLayersAux]
  | succ fuel ih =>
    intro remaining completed iters hlen
    by_cases hr : remaining = []
    · subst hr
      simp [buildLayersAuxT_nil, buildLayersAux_nil]
    · have hlt := nextRemaining_length_lt tasks remaining completed hr
      have hnext : (nextRemaining tasks remaining completed).length ≤ fuel := by omega
      rcases ih (nextRemaining tasks remaining completed)
        (nextCompleted tasks remaining completed) (iters + 1) hnext with ⟨h1, h2, h3⟩
      rw [buildLayersAuxT_cons tasks fuel remaining completed iters hr,
        buildLayersAux_cons tasks fuel remaining completed hr]
      refine ⟨h1, ?_, by rw [h3]⟩
      show (buildLayersAuxT tasks fuel (nextRemaining tasks remaining completed)
        (nextCompleted tasks remaining completed) (iters + 1)).2.2 ≤ iters + remaining.length
      have hposr : 0 < remaining.length := List.length_pos.mpr hr
      omega

/-! Claim theorems for the layer builder. -/

/-- C1: for every task list with unique ids, concatenating all layers returned
by `buildExecutionLayers` yields exactly the input id set, each id exactly
once — no duplicates, no omissions, and hence pairwise disjoint groups. -/
theorem claim1_layering_exhaustive (tasks : List RalphTask)
    (h : (tasks.map (fun t => t.id)).Nodup) :
    List.Perm ((buildExecutionLayers tasks).flatten.map (fun t => t.id))
      (tasks.map (fun t => t.id))
    ∧ ((buildExecutionLayers tasks).flatten.map (fun t => t.id)).Nodup := by
  have hset := newSetOf_eq_self (tasks.map (fun t => t.id)) h
  have hlen : (newSetOf (tasks.map (fun t => t.id))).length < tasks.length + 1 := by
    have h1 := newSetOf_length_le (tasks.map (fun t => t.id))
    rw [List.length_map] at h1
    omega
  have hsub : ∀ tid ∈ newSetOf (tasks.map (fun t => t.id)), tid ∈ tasks.map (fun t => t.id) :=
    fun tid htid => (mem_newSetOf tid _).mp htid
  have hperm := aux_perm tasks (tasks.length + 1) (newSetOf (tasks.map (fun t => t.id))) [] hlen hsub
  have hco : List.Perm (newSetOf (tasks.map (fun t => t.id))) (tasks.map (fun t => t.id)) := by
    rw [hset]
  unfold buildExecutionLayers
  exact ⟨hperm.trans hco, (hperm.trans hco).nodup_iff.mpr h⟩

/-- Witness for C1 at a concrete three-task diamond. -/
theorem claim1_witness :
    List.Perm ((buildExecutionLayers demoC1Tasks).flatten.map (fun t => t.id))
      (demoC1Tasks.map (fun t => t.id))
    ∧ ((buildExecutionLayers demoC1Tasks).flatten.map (fun t => t.id)).Nodup :=
  claim1_layering_exhaustive demoC1Tasks (by decide)

/-- C2: every task in a non-fallback layer has each of its dependencies in a
strictly earlier layer; a fallback layer, if any, is the final layer (all
remaining unresolved ids land in it together); and the flagged layering
projects onto `buildExecutionLayers`. -/
theorem claim2_layering_validity (tasks : List RalphTask) :
    (∀ (i : Nat) (layer : List RalphTask),
      (buildExecutionLayersFlagged tasks)[i]? = some (layer, false) →
      ∀ t ∈ layer, ∀ d ∈ taskDeps t,
        ∃ (j : Nat) (earlier : List RalphTask) (eflag : Bool), j < i ∧
          (buildExecutionLayersFlagged tasks)[j]? = some (earlier, eflag) ∧
          d ∈ earlier.map (fun u => u.id))
    ∧ (∀ (i : Nat) (layer : List RalphTask),
      (buildExecutionLayersFlagged tasks)[i]? = some (layer, true) →
      i + 1 = (buildExecutionLayersFlagged tasks).length)
    ∧ (buildExecutionLayersFlagged tasks).map Prod.fst = buildExecutionLayers tasks := by
  have hsub : ∀ tid ∈ newSetOf (tasks.map (fun t => t.id)), tid ∈ tasks.map (fun t => t.id) :=
    fun tid htid => (mem_newSetOf tid _).mp htid
  refine ⟨?_, ?_, ?_⟩
  · intro i layer hsome
    unfold buildExecutionLayersFlagged at hsome ⊢
    intro t ht d hd
    rcases auxF_valid tasks (tasks.length + 1) (newSetOf (tasks.map (fun t => t.id))) [] hsub
        i layer hsome t ht d hd with hc | hrest
    · exact absurd hc (List.not_mem_nil d)
    · exact hrest
  · intro i layer hsome
    unfold buildExecutionLayersFlagged at hsome ⊢
    exact auxF_fb_last tasks (tasks.length + 1) (newSetOf (tasks.map (fun t => t.id))) []
      i layer hsome
  · unfold buildExecutionLayersFlagged buildExecutionLayers
    exact auxF_map_fst tasks (tasks.length + 1) (newSetOf (tasks.map (fun t => t.id))) []

/-- Witness for C2: in `[a, b]` with `b` depending on `a`, the dependency `a`
of layer-1 task `b` appears in a strictly earlier layer. -/
theorem claim2_witness :
    ∃ (j : Nat) (earlier : List RalphTask) (eflag : Bool), j < 1 ∧
      (buildExecutionLayersFlagged demoC2Tasks)[j]? = some (earlier, eflag) ∧
      "a" ∈ earlier.map (fun u => u.id) :=
  (claim2_layering_validity demoC2Tasks).1 1 [demoB] (by decide) demoB (by decide) "a" (by decide)

/-- C3: whenever the candidate layer is empty while tasks remain, all
remaining tasks are emitted together as one single final layer. -/
theorem claim3_fallback_single_layer (tasks : List RalphTask)
    (remaining completed : List String) (fuel : Nat)
    (hne : remaining ≠ [])
    (hc : candidateIds tasks remaining completed = []) :
    buildLayersAux tasks (fuel + 1) remaining completed =
      [remaining.map (taskMapGet tasks)] := by
  have hflag : layerFlag tasks remaining completed = true := by
    unfold layerFlag
    simp [hc, List.isEmpty_iff, hne]
  have hids : layerIdsOf tasks remaining completed = remaining := by
    unfold layerIdsOf
    rw [if_pos hflag]
  rw [buildLayersAux_cons tasks fuel remaining completed hne, hids,
    nextRemaining_of_flag tasks remaining completed hflag, buildLayersAux_nil]

/-- Witness for C3: the two-task cycle `a ↔ b` yields exactly one layer
containing both tasks. -/
theorem claim3_witness :
    buildExecutionLayers demoCycleTasks = [[demoCycA, demoCycB]] := by
  have h := claim3_fallback_single_layer demoCycleTasks ["a", "b"] [] 2 (by decide) (by decide)
  show buildLayersAux demoCycleTasks (2 + 1) ["a", "b"] [] = [[demoCycA, demoCycB]]
  exact h.trans (by decide)

/-- C4: the layer builder terminates on every input: its loop runs at most
`tasks.length + 1` iterations, the `remaining` set is empty when the loop
stops, and the instrumented run computes the same layers. -/
theorem claim4_termination (tasks : List RalphTask) :
    (buildExecutionLayersTrace tasks).2.2 ≤ tasks.length + 1
    ∧ (buildExecutionLayersTrace tasks).2.1 = []
    ∧ (buildExecutionLayersTrace tasks).1 = buildExecutionLayers tasks := by
  have h4 := newSetOf_length_le (tasks.map (fun t => t.id))
  rw [List.length_map] at h4
  have hlen : (newSetOf (tasks.map (fun t => t.id))).length ≤ tasks.length + 1 := by omega
  rcases auxT_spec tasks (tasks.length + 1) (newSetOf (tasks.map (fun t => t.id))) [] 0 hlen
    with ⟨h1, h2, h3⟩
  refine ⟨?_, h1, h3⟩
  show (buildLayersAuxT tasks (tasks.length + 1)
    (newSetOf (tasks.map (fun t => t.id))) [] 0).2.2 ≤ tasks.length + 1
  omega

/-- C10: a task in a non-fallback layer has all its dependency ids among the
input task ids (contrapositive: a task with a dependency on an id absent from
the input — such as a dependency Completed in a prior pass and therefore
filtered out of the Pending re-layering done by `ralph_run` — can only be
emitted through the fallback layer). -/
theorem claim10_missing_dep_only_fallback :
    (∀ (tasks : List RalphTask) (i : Nat) (layer : List RalphTask),
      (buildExecutionLayersFlagged tasks)[i]? = some (layer, false) →
      ∀ t ∈ layer, ∀ d ∈ taskDeps t, d ∈ tasks.map (fun u => u.id))
    ∧ (∀ (loopTasks : List RalphTask) (t : RalphTask) (d : String) (i : Nat)
        (layer : List RalphTask),
      t.status = TaskStatus.pending → d ∈ taskDeps t →
      (∀ u ∈ loopTasks, u.id = d → u.status = TaskStatus.completed) →
      (buildExecutionLayersFlagged
        (loopTasks.filter (fun u => decide (u.status = TaskStatus.pending))))[i]? =
          some (layer, false) →
      ¬ t ∈ layer) := by
  have part1 : ∀ (tasks : List RalphTask) (i : Nat) (layer : List RalphTask),
      (buildExecutionLayersFlagged tasks)[i]? = some (layer, false) →
      ∀ t ∈ layer, ∀ d ∈ taskDeps t, d ∈ tasks.map (fun u => u.id) := by
    intro tasks i layer hsome t ht d hd
    unfold buildExecutionLayersFlagged at hsome
    have hsub : ∀ tid ∈ newSetOf (tasks.map (fun t => t.id)), tid ∈ tasks.map (fun t => t.id) :=
      fun tid htid => (mem_newSetOf tid _).mp htid
    rcases auxF_valid tasks (tasks.length + 1) (newSetOf (tasks.map (fun t => t.id))) [] hsub
        i layer hsome t ht d hd with hc | ⟨j, earlier, eflag, _, hsome', hmem⟩
    · exact absurd hc (List.not_mem_nil d)
    · exact auxF_ids_sub tasks (tasks.length + 1) (newSetOf (tasks.map (fun t => t.id))) [] hsub
        j earlier eflag hsome' d hmem
  refine ⟨part1, ?_⟩
  intro loopTasks t d i layer hpend hd hcompl hsome hmem
  have hids := part1 (loopTasks.filter (fun u => decide (u.status = TaskStatus.pending)))
    i layer hsome t hmem d hd
  rcases List.mem_map.mp hids with ⟨u, hu, huid⟩
  have hu' := List.mem_filter.mp hu
  have hupend : u.status = TaskStatus.pending := by
    have := hu'.2
    simpa using this
  have hucompl : u.status = TaskStatus.completed := hcompl u hu'.1 huid
  rw [hupend] at hucompl
  exact TaskStatus.noConfusion hucompl

/-- Witness for C10: applying the first component at the concrete list
`[a, b]` with `b` depending on `a` shows the dependency id lies among the
input ids. -/
theorem claim10_witness : "a" ∈ demoC2Tasks.map (fun u => u.id) :=
  claim10_missing_dep_only_fallback.1 demoC2Tasks 1 [demoB] (by decide) demoB (by decide)
    "a" (by decide)

/-! Lemmas for the dependency inferencer. -/

lemma find?_key_unique (key : String) (v : List String) :
    ∀ (m : List (String × List String)), (m.map Prod.fst).Nodup → (key, v) ∈ m →
      m.find? (fun p => decide (p.1 = key)) = some (key, v) := by
  intro m
  induction m with
  | nil => intro _ h; exact absurd h (List.not_mem_nil _)
  | cons p ps ih =>
    intro hnd hmem
    rw [List.map_cons, List.nodup_cons] at hnd
    by_cases hk : p.1 = key
    · rcases List.mem_cons.mp hmem with heq | htail
      · rw [List.find?_cons_of_pos _ (by simpa using hk), ← heq]
      · exfalso
        refine hnd.1 ?_
        rw [hk]
        exact List.mem_map.mpr ⟨(key, v), htail, rfl⟩
    · rw [List.find?_cons_of_neg _ (by simpa using hk)]
      rcases List.mem_cons.mp hmem with heq | htail
      · exact absurd (by rw [← heq]) hk
      · exact ih hnd.2 htail

lemma assocGetLast_map (f : TaskWithDeps → List String) (tasks : List TaskWithDeps)
    (hN : (tasks.map (fun t => t.id)).Nodup) (A : TaskWithDeps) (hA : A ∈ tasks) :
    assocGetLast (tasks.map (fun t => (t.id, f t))) A.id = some (f A) := by
  unfold assocGetLast
  have hfind : (tasks.map (fun t => (t.id, f t))).reverse.find? (fun p => decide (p.1 = A.id)) =
      some (A.id, f A) := by
    rw [show (tasks.map (fun t => (t.id, f t))).reverse =
        tasks.reverse.map (fun t => (t.id, f t)) from (List.map_reverse _ _).symm]
    refine find?_key_unique A.id (f A) _ ?_ ?_
    · simp only [List.map_map]
      show (tasks.reverse.map (fun t => t.id)).Nodup
      rw [List.map_reverse]
      exact List.nodup_reverse.mpr hN
    · exact List.mem_map.mpr ⟨A, List.mem_reverse.mpr hA, rfl⟩
  rw [hfind]
  rfl

lemma depsFoldl_eq (taskId : String) (inputs : List String) (outputsOf : String → List String) :
    ∀ (l : List TaskWithDeps) (init : List String),
      l.foldl (fun deps other =>
          if other.id = taskId then deps
          else
            if inputs.any (fun i => memb i (outputsOf other.id)) then deps ++ [other.id]
            else deps) init =
        init ++ (l.filter (fun other => !(decide (other.id = taskId)) &&
            inputs.any (fun i => memb i (outputsOf other.id)))).map (fun o => o.id) := by
  intro l
  induction l with
  | nil => intro init; simp
  | cons o l ih =>
    intro init
    simp only [List.foldl_cons, List.filter_cons]
    by_cases h1 : o.id = taskId
    · have hcond : (!(decide (o.id = taskId)) &&
          inputs.any (fun i => memb i (outputsOf o.id))) = false := by
        simp [h1]
      rw [if_pos h1, hcond]
      simp only [Bool.false_eq_true, if_false]
      exact ih init
    · by_cases h2 : inputs.any (fun i => memb i (outputsOf o.id)) = true
      · have hcond : (!(decide (o.id = taskId)) &&
            inputs.any (fun i => memb i (outputsOf o.id))) = true := by
          simp [h1, h2]
        rw [if_neg h1, if_pos h2, hcond, if_pos rfl, ih (init ++ [o.id]), List.map_cons,
          List.append_assoc]
        rfl
      · have h2' : inputs.any (fun i => memb i (outputsOf o.id)) = false := by
          rw [Bool.not_eq_true] at h2
          exact h2
        have hcond : (!(decide (o.id = taskId)) &&
            inputs.any (fun i => memb i (outputsOf o.id))) = false := by
          simp [h1, h2']
        rw [if_neg h1, if_neg h2, hcond]
        simp only [Bool.false_eq_true, if_false]
        exact ih init

/-- C5: with unique task ids (the data model's standing invariant), the
inferencer records that `A` depends on `B` iff `B ≠ A` and some input token of
`A` is an output token of `B`, and each `B` is recorded at most once per `A`
(the inferred dependency list has no duplicates). -/
theorem claim5_inferencer (tasks : List TaskWithDeps)
    (hN : (tasks.map (fun t => t.id)).Nodup)
    (A : TaskWithDeps) (hA : A ∈ tasks) (B : TaskWithDeps) (hB : B ∈ tasks) :
    (B.id ∈ depMapGet (analyzeDependencies tasks) A.id ↔
      (¬ B.id = A.id ∧ ∃ tok, tok ∈ extractTokens inputPatterns A.content ∧
        tok ∈ extractTokens outputPatterns B.content))
    ∧ (depMapGet (analyzeDependencies tasks) A.id).Nodup := by
  have hana : analyzeDependencies tasks =
      tasks.map (fun task => (task.id,
        tasks.foldl (fun deps other =>
          if other.id = task.id then deps
          else
            if (extractTokens inputPatterns task.content).any
                (fun i => memb i ((assocGetLast
                  (tasks.map (fun t => (t.id, extractTokens outputPatterns t.content)))
                  other.id).getD [])) then deps ++ [other.id]
            else deps) [])) := rfl
  have hget : depMapGet (analyzeDependencies tasks) A.id =
      tasks.foldl (fun deps other =>
        if other.id = A.id then deps
        else
          if (extractTokens inputPatterns A.content).any
              (fun i => memb i ((assocGetLast
                (tasks.map (fun t => (t.id, extractTokens outputPatterns t.content)))
                other.id).getD [])) then deps ++ [other.id]
          else deps) [] := by
    unfold depMapGet
    rw [hana, assocGetLast_map _ tasks hN A hA]
    rfl
  have hfold := depsFoldl_eq A.id (extractTokens inputPatterns A.content)
    (fun oid => (assocGetLast
      (tasks.map (fun t => (t.id, extractTokens outputPatterns t.content))) oid).getD [])
    tasks []
  simp only [] at hfold
  rw [List.nil_append] at hfold
  have hfc : tasks.filter (fun other => !(decide (other.id = A.id)) &&
        (extractTokens inputPatterns A.content).any
          (fun i => memb i ((assocGetLast
            (tasks.map (fun t => (t.id, extractTokens outputPatterns t.content)))
            other.id).getD []))) =
      tasks.filter (fun other => !(decide (other.id = A.id)) &&
        (extractTokens inputPatterns A.content).any
          (fun i => memb i (extractTokens outputPatterns other.content))) := by
    refine List.filter_congr ?_
    intro o ho
    have hoget := assocGetLast_map (fun t => extractTokens outputPatterns t.content) tasks hN o ho
    rw [hoget]
    rfl
  have hdeps : depMapGet (analyzeDependencies tasks) A.id =
      (tasks.filter (fun other => !(decide (other.id = A.id)) &&
        (extractTokens inputPatterns A.content).any
          (fun i => memb i (extractTokens outputPatterns other.content)))).map
        (fun o => o.id) := by
    rw [hget, hfold, hfc]
  constructor
  · rw [hdeps]
    constructor
    · intro h
      rcases List.mem_map.mp h with ⟨o, hof, hoid⟩
      have hom := List.mem_filter.mp hof
      have hoB : o = B := List.inj_on_of_nodup_map hN hom.1 hB hoid
      subst hoB
      have hom2 := hom.2
      rw [Bool.and_eq_true] at hom2
      obtain ⟨hne, hany⟩ := hom2
      refine ⟨?_, ?_⟩
      · intro hc
        rw [show o.id = A.id from hc] at hne
        simp at hne
      · rcases List.any_eq_true.mp hany with ⟨tok, htok, hmem⟩
        exact ⟨tok, htok, (memb_iff _ _).mp hmem⟩
    · rintro ⟨hne, tok, htok1, htok2⟩
      refine List.mem_map.mpr ⟨B, List.mem_filter.mpr ⟨hB, ?_⟩, rfl⟩
      rw [Bool.and_eq_true]
      refine ⟨?_, ?_⟩
      · simp [hne]
      · exact List.any_eq_true.mpr ⟨tok, htok1, (memb_iff _ _).mpr htok2⟩
  · rw [hdeps]
    exact hN.sublist ((List.filter_sublist tasks).map (fun t => t.id))

/-- Witness for C5: in the concrete pair `a`: "create the schema", `b`: "use
the schema in the API", `b` is inferred to depend on `a`, `a` has no inferred
dependencies, and a task matching no pattern has an empty dependency set. -/
theorem claim5_witness :
    ("a" ∈ depMapGet (analyzeDependencies demoInferTasks) "b")
    ∧ depMapGet (analyzeDependencies demoInferTasks) "a" = []
    ∧ depMapGet (analyzeDependencies [demoNoPattern]) "c" = [] := by
  refine ⟨?_, by decide, by decide⟩
  have h := (claim5_inferencer demoInferTasks (by decide) demoInferB (by decide)
    demoInferA (by decide)).1
  exact h.mpr ⟨by decide, "schema", by decide, by decide⟩

/-- C6: failures are isolated and registry cleanup is unconditional: with
three distinct tasks where task 2's submission raises, tasks 1 and 3 end
Completed, task 2 ends Failed with a non-empty error, and the active-worker
registry holds no entry for any of the three. -/
theorem claim6_failure_isolation (t1 t2 t3 : RalphTask) (s1 s2 s3 msg : String)
    (hid12 : ¬ t1.id = t2.id) (hid23 : ¬ t2.id = t3.id) (hid13 : ¬ t3.id = t1.id)
    (hmsg : ¬ msg = "") :
    ((executeTasksParallel (isolationBehOf t1 t2 s1 s2 s3 msg) [t1, t2, t3] []).1.map
        (fun t => t.status) =
      [TaskStatus.completed, TaskStatus.failed, TaskStatus.completed])
    ∧ (∃ m, ¬ m = "" ∧
        (executeTasksParallel (isolationBehOf t1 t2 s1 s2 s3 msg) [t1, t2, t3] []).1.map
            (fun t => t.error) =
          [t1.error, some m, t3.error])
    ∧ (executeTasksParallel (isolationBehOf t1 t2 s1 s2 s3 msg) [t1, t2, t3] []).2 = [] := by
  have hid23' : ¬ t3.id = t2.id := fun h => hid23 h.symm
  refine ⟨?_, ⟨msg, hmsg, ?_⟩, ?_⟩ <;>
    simp [executeTasksParallel, executeTask, isolationBehOf, finallyCleanup, regSet,
      regDelete, memb, hid12, hid13, hid23']

/-- Witness for C6 at three concrete independent tasks. -/
theorem claim6_witness :
    ((executeTasksParallel (isolationBehOf demoRun1 demoRun2 "s1" "s2" "s3" "boom")
        [demoRun1, demoRun2, demoRun3] []).1.map (fun t => t.status) =
      [TaskStatus.completed, TaskStatus.failed, TaskStatus.completed])
    ∧ (∃ m, ¬ m = "" ∧
        (executeTasksParallel (isolationBehOf demoRun1 demoRun2 "s1" "s2" "s3" "boom")
            [demoRun1, demoRun2, demoRun3] []).1.map (fun t => t.error) =
          [demoRun1.error, some m, demoRun3.error])
    ∧ (executeTasksParallel (isolationBehOf demoRun1 demoRun2 "s1" "s2" "s3" "boom")
        [demoRun1, demoRun2, demoRun3] []).2 = [] :=
  claim6_failure_isolation demoRun1 demoRun2 demoRun3 "s1" "s2" "s3" "boom"
    (by decide) (by decide) (by decide) (by decide)

/-- C7: calling `ralph_run` while the active loop has `running = true` returns
the AlreadyRunning report and leaves the whole plugin state unchanged; in
particular no task status, error, or session handle changes and no task is
executed. -/
theorem claim7_reentrancy_guard (serial : Bool) (behOf : String → WorkerBehavior)
    (st : PluginState) (loop : RalphLoop)
    (hloop : st.activeLoop = some loop) (hrun : loop.running = true) :
    ralph_run serial behOf st = (st, RunOutcome.alreadyRunning) := by
  unfold ralph_run
  rw [hloop]
  simp [hrun]

/-- Witness for C7 at a concrete running loop. -/
theorem claim7_witness :
    ralph_run false (fun _ => WorkerBehavior.succeeds "s") demoRunningState =
      (demoRunningState, RunOutcome.alreadyRunning) :=
  claim7_reentrancy_guard false (fun _ => WorkerBehavior.succeeds "s") demoRunningState
    demoRunningLoop (by decide) (by decide)

/-- C8: restoring the state saved by `saveRalphState` via `loadRalphState`
yields a run whose every task has identical id, content, status,
dependencies, error, and worker handle, and identical prompt and model
preference. -/
theorem claim8_snapshot_roundtrip (st : PluginState) (now : Nat) (loop : RalphLoop)
    (h : st.activeLoop = some loop) :
    ∃ loop', (loadRalphState (saveRalphState st now) st).activeLoop = some loop'
      ∧ loop'.tasks.map (fun t => (t.id, t.content, t.status, taskDeps t, t.error, t.sessionId)) =
          loop.tasks.map (fun t => (t.id, t.content, t.status, taskDeps t, t.error, t.sessionId))
      ∧ loop'.originalPrompt = loop.originalPrompt
      ∧ loop'.model = loop.model := by
  refine ⟨loop, ?_, rfl, rfl, rfl⟩
  simp [loadRalphState, saveRalphState, h]

/-- Witness for C8 at a concrete run mixing Completed, Failed, and Pending
tasks. -/
theorem claim8_witness :
    ∃ loop', (loadRalphState (saveRalphState demoMixedState 7) demoMixedState).activeLoop =
        some loop'
      ∧ loop'.tasks.map (fun t => (t.id, t.content, t.status, taskDeps t, t.error, t.sessionId)) =
          demoMixedLoop.tasks.map
            (fun t => (t.id, t.content, t.status, taskDeps t, t.error, t.sessionId))
      ∧ loop'.originalPrompt = demoMixedLoop.originalPrompt
      ∧ loop'.model = demoMixedLoop.model :=
  claim8_snapshot_roundtrip demoMixedState 7 demoMixedLoop (by decide)

/-- C9: for a Pending task, `executeTask` always ends in a terminal status
(Completed or Failed), every status assignment follows the permitted
Pending→InProgress→{Completed,Failed} chain, and whenever submission was
actually attempted the task passed through InProgress. -/
theorem claim9_status_lifecycle (beh : WorkerBehavior) (task : RalphTask)
    (reg : List (String × String)) (h : task.status = TaskStatus.pending) :
    ((executeTask beh task reg).task.status = TaskStatus.completed ∨
      (executeTask beh task reg).task.status = TaskStatus.failed)
    ∧ statusPath task.status (executeTask beh task reg).statusTrace = true
    ∧ (behAttempted beh = true →
        TaskStatus.in_progress ∈ (executeTask beh task reg).statusTrace) := by
  cases beh <;> simp [executeTask, statusPath, statusStep, behAttempted, h]

/-- Witness for C9 at a concrete pending task whose submission raises. -/
theorem claim9_witness :
    ((executeTask (WorkerBehavior.promptThrows "s" "boom") demoA []).task.status =
        TaskStatus.completed ∨
      (executeTask (WorkerBehavior.promptThrows "s" "boom") demoA []).task.status =
        TaskStatus.failed)
    ∧ statusPath demoA.status
        (executeTask (WorkerBehavior.promptThrows "s" "boom") demoA []).statusTrace = true
    ∧ (behAttempted (WorkerBehavior.promptThrows "s" "boom") = true →
        TaskStatus.in_progress ∈
          (executeTask (WorkerBehavior.promptThrows "s" "boom") demoA []).statusTrace) :=
  claim9_status_lifecycle (WorkerBehavior.promptThrows "s" "boom") demoA [] (by decide)
